import Mathlib

/-!
Shallow embedding of the PID derivation and bulk-reconciliation core of the
inventory tracker. Optional TypeScript strings (string or undefined) are
modelled as Option String, with none for undefined. Strings are treated as
their character lists; JavaScript string helpers used by the source (trim,
toUpperCase on the sanitized ASCII range, split on a separator run) are
modelled explicitly below.
-/

/-- Truthiness test of an optional string in JavaScript: undefined and the
empty string are falsy, every other string is truthy. -/
def strFalsy (s : Option String) : Bool :=
  match s with
  | none => true
  | some s => s == ""

/-- Translation of calculateExpectedPid from src/lib/utils.ts. The guard
models the JavaScript test on (not sn or sn.length < 5), where the
truthiness test rejects undefined and the empty string; sn.substring(4) is
modelled by dropping the first four characters. -/
def calculateExpectedPid (sn : Option String) : String :=
  match sn with
  | none => ""
  | some s => if s = "" ∨ s.length < 5 then "" else "Z100" ++ String.mk (s.data.drop 4)

/-- Translation of isPidMismatch from src/lib/utils.ts: false when either
argument is falsy, otherwise a case-sensitive inequality test against the
expected identifier. -/
def isPidMismatch (sn pid : Option String) : Bool :=
  if strFalsy sn || strFalsy pid then false
  else calculateExpectedPid sn != pid.getD ""

/-- C1: calculateExpectedPid returns the empty string for undefined input and
for every input shorter than 5 characters (the empty string included), and
for every input of length at least 5 it returns the literal Z100 followed by
the input with its first four characters dropped. Totality is inherent: the
function is a total Lean definition. -/
theorem deriveExpectedIdentifier_spec :
    calculateExpectedPid none = "" ∧
    (∀ s : String, s.length < 5 → calculateExpectedPid (some s) = "") ∧
    (∀ s : String, 5 ≤ s.length →
      calculateExpectedPid (some s) = "Z100" ++ String.mk (s.data.drop 4)) := by
  refine ⟨rfl, ?_, ?_⟩
  · intro s h
    simp only [calculateExpectedPid]
    rw [if_pos (Or.inr h)]
  · intro s h
    simp only [calculateExpectedPid]
    rw [if_neg]
    rintro (rfl | hlt)
    · exact absurd h (by decide)
    · omega

theorem deriveExpectedIdentifier_spec_witness :
    (("AB" : String).length < 5 ∧ calculateExpectedPid (some "AB") = "") ∧
    (5 ≤ ("3ITTA13927" : String).length ∧
      calculateExpectedPid (some "3ITTA13927") =
        "Z100" ++ String.mk (("3ITTA13927" : String).data.drop 4)) :=
  ⟨⟨by decide, deriveExpectedIdentifier_spec.2.1 "AB" (by decide)⟩,
   ⟨by decide, deriveExpectedIdentifier_spec.2.2 "3ITTA13927" (by decide)⟩⟩

/-- C2 counterexample: the input ABCD has length exactly 4, yet
calculateExpectedPid returns the empty string, not Z100, because the guard
rejects every input shorter than 5 characters. -/
theorem deriveExpectedIdentifier_len4_claim_false :
    calculateExpectedPid (some "ABCD") ≠ "Z100" := by decide

/-- C2 amended: every input of length exactly 4 falls under the
shorter-than-5 rule and produces the empty string; the prefix-alone output
is never produced for such inputs. -/
theorem deriveExpectedIdentifier_len4 :
    ∀ s : String, s.length = 4 → calculateExpectedPid (some s) = "" := by
  intro s h
  simp only [calculateExpectedPid]
  rw [if_pos (Or.inr (by omega))]

theorem deriveExpectedIdentifier_len4_witness :
    ("ABCD" : String).length = 4 ∧ calculateExpectedPid (some "ABCD") = "" :=
  ⟨by decide, deriveExpectedIdentifier_len4 "ABCD" (by decide)⟩

/-- C3: isPidMismatch returns false whenever either argument is undefined or
empty, for every value of the other argument; and on two non-empty strings
it returns true exactly when the derived expected identifier differs from
the stored identifier under case-sensitive string equality. The function is
a total Lean definition, hence pure and never throwing. -/
theorem isIdentifierMismatch_spec :
    (∀ p, isPidMismatch none p = false) ∧
    (∀ p, isPidMismatch (some "") p = false) ∧
    (∀ s, isPidMismatch s none = false) ∧
    (∀ s, isPidMismatch s (some "") = false) ∧
    (∀ s p : String, s ≠ "" → p ≠ "" →
      (isPidMismatch (some s) (some p) = true ↔ calculateExpectedPid (some s) ≠ p)) := by
  refine ⟨?_, ?_, ?_, ?_, ?_⟩
  · intro p; simp [isPidMismatch, strFalsy]
  · intro p; simp [isPidMismatch, strFalsy]
  · intro s; cases s <;> simp [isPidMismatch, strFalsy]
  · intro s; cases s <;> simp [isPidMismatch, strFalsy]
  · intro s p hs hp
    simp [isPidMismatch, strFalsy, hs, hp, bne_iff_ne]

theorem isIdentifierMismatch_spec_witness :
    isPidMismatch (some "3ITTA13927") (some "Z100A13927") = true ↔
      calculateExpectedPid (some "3ITTA13927") ≠ "Z100A13927" :=
  isIdentifierMismatch_spec.2.2.2.2 "3ITTA13927" "Z100A13927" (by decide) (by decide)

/-- Characters kept by the sanitizing regex of sanitizeAlphanumeric in
src/lib/security.ts: ASCII letters, digits, hyphen and underscore. Every
other character is deleted by the replace call. -/
def isAllowedChar (c : Char) : Bool :=
  (decide ('a' ≤ c) && decide (c ≤ 'z')) || (decide ('A' ≤ c) && decide (c ≤ 'Z')) ||
    (decide ('0' ≤ c) && decide (c ≤ '9')) || c == '-' || c == '_'

/-- Characters removed from the ends of a string by the JavaScript trim
method: ASCII whitespace and line terminators together with the Unicode
space separators and the byte order mark. -/
def jsWhitespaceChars : List Char :=
  ['\t', '\n', '\x0b', '\x0c', '\r', ' ', '\xa0', ' ', ' ', ' ',
   ' ', ' ', ' ', ' ', ' ', ' ', ' ', ' ',
   ' ', ' ', ' ', ' ', ' ', '　', '﻿']

def jsWhitespace (c : Char) : Bool :=
  jsWhitespaceChars.contains c

/-- Separator characters of the splitting regex in parsedPids from
src/components/pid-comparison-modal.tsx: newline, comma, semicolon. -/
def sepChar (c : Char) : Bool :=
  c == '\n' || c == ',' || c == ';'

/-- Pairs of each lowercase ASCII letter with its uppercase form. -/
def asciiUpperTable : List (Char × Char) :=
  [('a', 'A'), ('b', 'B'), ('c', 'C'), ('d', 'D'), ('e', 'E'), ('f', 'F'),
   ('g', 'G'), ('h', 'H'), ('i', 'I'), ('j', 'J'), ('k', 'K'), ('l', 'L'),
   ('m', 'M'), ('n', 'N'), ('o', 'O'), ('p', 'P'), ('q', 'Q'), ('r', 'R'),
   ('s', 'S'), ('t', 'T'), ('u', 'U'), ('v', 'V'), ('w', 'W'), ('x', 'X'),
   ('y', 'Y'), ('z', 'Z')]

/-- Model of the JavaScript toUpperCase call inside sanitizeAlphanumeric.
The sanitizing replace runs first, so only ASCII letters, digits, hyphen
and underscore reach the uppercase step; on those the JavaScript function
maps lowercase ASCII letters to uppercase and fixes everything else, which
the lookup table realizes exactly. -/
def jsToUpperChar (c : Char) : Char :=
  match asciiUpperTable.find? (fun p => p.1 == c) with
  | some p => p.2
  | none => c

def sanitizeChars (l : List Char) : List Char :=
  (l.filter isAllowedChar).map jsToUpperChar

/-- Translation of sanitizeAlphanumeric from src/lib/security.ts: delete
every character outside the letter, digit, hyphen, underscore class, then
uppercase the result. The leading guard on falsy input is subsumed because
the empty string sanitizes to itself. -/
def sanitizeAlphanumeric (input : String) : String :=
  String.mk (sanitizeChars input.data)

def trimChars (l : List Char) : List Char :=
  ((l.dropWhile jsWhitespace).reverse.dropWhile jsWhitespace).reverse

/-- Model of the JavaScript trim method: remove whitespace from both ends
of the string. -/
def jsTrim (s : String) : String :=
  String.mk (trimChars s.data)

/-- Translation of normalizePid from src/components/pid-comparison-modal.tsx:
sanitizeAlphanumeric applied to the trimmed token. -/
def normalizePid (pid : String) : String :=
  sanitizeAlphanumeric (jsTrim pid)

theorem ws_not_allowed (c : Char) (h : jsWhitespace c = true) : isAllowedChar c = false := by
  have hm : c ∈ jsWhitespaceChars := by
    simpa [jsWhitespace] using h
  have htab : jsWhitespaceChars.all (fun w => !isAllowedChar w) = true := by decide
  simpa using List.all_eq_true.mp htab c hm

theorem sep_not_allowed (c : Char) (h : sepChar c = true) : isAllowedChar c = false := by
  rcases Bool.or_eq_true_iff.mp h with h1 | h2
  · rcases Bool.or_eq_true_iff.mp h1 with h3 | h4
    · rw [eq_of_beq h3]; decide
    · rw [eq_of_beq h4]; decide
  · rw [eq_of_beq h2]; decide

theorem jsToUpperChar_of_find_none (c : Char)
    (h : asciiUpperTable.find? (fun p => p.1 == c) = none) : jsToUpperChar c = c := by
  simp [jsToUpperChar, h]

theorem jsToUpperChar_of_find_some (c : Char) (p : Char × Char)
    (h : asciiUpperTable.find? (fun q => q.1 == c) = some p) : jsToUpperChar c = p.2 := by
  simp [jsToUpperChar, h]

theorem upper_table_facts (p : Char × Char) (hp : p ∈ asciiUpperTable) :
    isAllowedChar p.2 = true ∧ jsWhitespace p.2 = false ∧
      asciiUpperTable.find? (fun q => q.1 == p.2) = none := by
  have htab : asciiUpperTable.all (fun q =>
      isAllowedChar q.2 && !jsWhitespace q.2 &&
        (asciiUpperTable.find? (fun r => r.1 == q.2)).isNone) = true := by decide
  have h := List.all_eq_true.mp htab p hp
  simp only [Bool.and_eq_true, Bool.not_eq_true', Option.isNone_iff_eq_none] at h
  exact ⟨h.1.1, h.1.2, h.2⟩

/-- Characters produced by sanitization are allowed, fixed by the uppercase
map, and neither whitespace nor separators. -/
theorem jsToUpperChar_normal (c : Char) (h : isAllowedChar c = true) :
    isAllowedChar (jsToUpperChar c) = true ∧
      jsToUpperChar (jsToUpperChar c) = jsToUpperChar c ∧
      jsWhitespace (jsToUpperChar c) = false ∧
      sepChar (jsToUpperChar c) = false := by
  cases hf : asciiUpperTable.find? (fun p => p.1 == c) with
  | none =>
      rw [jsToUpperChar_of_find_none c hf]
      refine ⟨h, jsToUpperChar_of_find_none c hf, ?_, ?_⟩
      · cases hw : jsWhitespace c with
        | false => rfl
        | true => rw [ws_not_allowed c hw] at h; exact absurd h (by simp)
      · cases hs : sepChar c with
        | false => rfl
        | true => rw [sep_not_allowed c hs] at h; exact absurd h (by simp)
  | some p =>
      have hmem : p ∈ asciiUpperTable := List.mem_of_find?_eq_some hf
      have hfacts := upper_table_facts p hmem
      rw [jsToUpperChar_of_find_some c p hf]
      refine ⟨hfacts.1, jsToUpperChar_of_find_none p.2 hfacts.2.2, hfacts.2.1, ?_⟩
      cases hs : sepChar p.2 with
      | false => rfl
      | true => rw [sep_not_allowed p.2 hs] at hfacts; exact absurd hfacts.1 (by simp)

theorem dropWhile_eq_self_of_not {p : Char → Bool} :
    ∀ l : List Char, (∀ c ∈ l, p c = false) → l.dropWhile p = l := by
  intro l h
  cases l with
  | nil => rfl
  | cons a t => simp [List.dropWhile_cons, h a (by simp)]

theorem trimChars_eq_self_of_not (l : List Char)
    (h : ∀ c ∈ l, jsWhitespace c = false) : trimChars l = l := by
  unfold trimChars
  rw [dropWhile_eq_self_of_not l h,
    dropWhile_eq_self_of_not l.reverse (fun c hc => h c (List.mem_reverse.mp hc)),
    List.reverse_reverse]

/-- Every character of a sanitized list is allowed, fixed by the uppercase
map, and neither whitespace nor a separator. -/
theorem sanitizeChars_normal (m : List Char) :
    ∀ c ∈ sanitizeChars m, isAllowedChar c = true ∧ jsToUpperChar c = c ∧
      jsWhitespace c = false ∧ sepChar c = false := by
  intro c hc
  obtain ⟨b, hb, rfl⟩ := List.mem_map.mp hc
  have hba : isAllowedChar b = true := (List.mem_filter.mp hb).2
  exact jsToUpperChar_normal b hba

theorem sanitize_trim_sanitize (m : List Char) :
    sanitizeChars (trimChars (sanitizeChars m)) = sanitizeChars m := by
  have hQ := sanitizeChars_normal m
  rw [trimChars_eq_self_of_not _ (fun c hc => (hQ c hc).2.2.1)]
  calc sanitizeChars (sanitizeChars m)
      = ((sanitizeChars m).filter isAllowedChar).map jsToUpperChar := rfl
    _ = (sanitizeChars m).map jsToUpperChar := by
        rw [List.filter_eq_self.mpr (fun a ha => (hQ a ha).1)]
    _ = (sanitizeChars m).map id := List.map_congr_left (fun a ha => (hQ a ha).2.1)
    _ = sanitizeChars m := List.map_id _

/-- C4: the shared normalization rule normalizePid, which is
sanitizeAlphanumeric composed with trim, is idempotent. -/
theorem normalize_idempotent (x : String) :
    normalizePid (normalizePid x) = normalizePid x := by
  show String.mk (sanitizeChars (trimChars (sanitizeChars (trimChars x.data)))) =
    String.mk (sanitizeChars (trimChars x.data))
  rw [sanitize_trim_sanitize]

/-- State machine behind the JavaScript split on the regex matching runs of
newline, comma and semicolon. The walk keeps the current token reversed in
acc; a separator emits the token and enters skipping mode, which consumes
the rest of the run; a run ending the input emits a trailing empty token,
as the JavaScript split does. -/
def jsSplitGo : List Char → Bool → List Char → List (List Char)
  | [], skipping, acc => if skipping then [[]] else [acc.reverse]
  | c :: cs, skipping, acc =>
    if sepChar c then
      if skipping then jsSplitGo cs true []
      else acc.reverse :: jsSplitGo cs true []
    else jsSplitGo cs false (c :: acc)

def jsSplit (s : String) : List String :=
  (jsSplitGo s.data false []).map String.mk

/-- Translation of the parsedPids computation in
src/components/pid-comparison-modal.tsx: the empty list for blank input,
otherwise split on runs of newline, comma and semicolon, normalize every
token and keep the non-empty ones. -/
def parsedPids (pidList : String) : List String :=
  if jsTrim pidList = "" then []
  else ((jsSplit pidList).map normalizePid).filter (fun pid => pid.length > 0)

theorem jsSplitGo_chars :
    ∀ (l : List Char) (skipping : Bool) (acc t : List Char),
      t ∈ jsSplitGo l skipping acc → ∀ c ∈ t, c ∈ l ∨ c ∈ acc := by
  intro l
  induction l with
  | nil =>
      intro skipping acc t ht c hc
      cases skipping with
      | true => simp [jsSplitGo] at ht; subst ht; simp at hc
      | false =>
          simp [jsSplitGo] at ht; subst ht
          exact Or.inr (List.mem_reverse.mp hc)
  | cons a rest ih =>
      intro skipping acc t ht c hc
      cases hsep : sepChar a with
      | false =>
          rw [jsSplitGo, if_neg (by simp [hsep])] at ht
          rcases ih false (a :: acc) t ht c hc with h | h
          · exact Or.inl (List.mem_cons_of_mem a h)
          · rcases List.mem_cons.mp h with rfl | h2
            · exact Or.inl (List.mem_cons_self _ _)
            · exact Or.inr h2
      | true =>
          cases skipping with
          | true =>
              rw [jsSplitGo, if_pos (by simp [hsep]), if_pos rfl] at ht
              rcases ih true [] t ht c hc with h | h
              · exact Or.inl (List.mem_cons_of_mem a h)
              · simp at h
          | false =>
              rw [jsSplitGo, if_pos (by simp [hsep]), if_neg (by simp)] at ht
              rcases List.mem_cons.mp ht with rfl | ht2
              · exact Or.inr (List.mem_reverse.mp hc)
              · rcases ih true [] t ht2 c hc with h | h
                · exact Or.inl (List.mem_cons_of_mem a h)
                · simp at h

theorem jsSplitGo_no_sep :
    ∀ (l acc : List Char), (∀ c ∈ l, sepChar c = false) →
      jsSplitGo l false acc = [acc.reverse ++ l] := by
  intro l
  induction l with
  | nil => intro acc h; simp [jsSplitGo]
  | cons a rest ih =>
      intro acc h
      rw [jsSplitGo, if_neg (by simp [h a (by simp)])]
      rw [ih (a :: acc) (fun c hc => h c (List.mem_cons_of_mem a hc))]
      simp

theorem trimChars_nil_of_all_ws (l : List Char) (h : ∀ c ∈ l, jsWhitespace c = true) :
    trimChars l = [] := by
  unfold trimChars
  rw [List.dropWhile_eq_nil_iff.mpr h]
  rfl

theorem trimChars_ws_of_nil (l : List Char) (h : trimChars l = []) :
    ∀ c ∈ l, jsWhitespace c = true := by
  unfold trimChars at h
  rw [List.reverse_eq_nil_iff, List.dropWhile_eq_nil_iff] at h
  intro c hc
  have hsplit : l.takeWhile jsWhitespace ++ l.dropWhile jsWhitespace = l :=
    List.takeWhile_append_dropWhile jsWhitespace l
  rw [← hsplit] at hc
  rcases List.mem_append.mp hc with h1 | h2
  · exact List.mem_takeWhile_imp h1
  · exact h c (List.mem_reverse.mpr h2)

/-- C5: parsedPids equals the split of the raw text on runs of newline,
comma and semicolon, with every token normalized and tokens normalizing to
the empty string discarded; order preservation and duplicate retention are
immediate from the map and filter form. Blank input, meaning input whose
trim is empty, yields the empty list. -/
theorem parseIdentifierList_spec (raw : String) :
    parsedPids raw = ((jsSplit raw).map normalizePid).filter (fun pid => pid.length > 0) ∧
      (jsTrim raw = "" → parsedPids raw = []) := by
  constructor
  · by_cases hg : jsTrim raw = ""
    · rw [parsedPids, if_pos hg]
      symm
      rw [List.filter_eq_nil_iff]
      intro a ha
      obtain ⟨t, ht, rfl⟩ := List.mem_map.mp ha
      obtain ⟨tl, htl, rfl⟩ := List.mem_map.mp ht
      have hws : ∀ c ∈ raw.data, jsWhitespace c = true := by
        apply trimChars_ws_of_nil
        have : (jsTrim raw).data = ("" : String).data := by rw [hg]
        simpa [jsTrim] using this
      have htws : ∀ c ∈ tl, jsWhitespace c = true := by
        intro c hc
        rcases jsSplitGo_chars raw.data false [] tl htl c hc with h | h
        · exact hws c h
        · simp at h
      have : normalizePid (String.mk tl) = String.mk [] := by
        show String.mk (sanitizeChars (trimChars tl)) = String.mk []
        rw [trimChars_nil_of_all_ws tl htws]
        rfl
      rw [this]
      simp [String.length]
    · rw [parsedPids, if_neg hg]
  · intro hg
    rw [parsedPids, if_pos hg]

theorem parseIdentifierList_spec_witness :
    jsTrim " \n " = "" ∧ parsedPids " \n " = [] :=
  ⟨by decide, (parseIdentifierList_spec " \n ").2 (by decide)⟩

/-- Device type options from src/types/index.ts. -/
inductive DeviceType
  | Toughbook
  | Laptop
  | Desktop
  | Other
deriving DecidableEq

/-- Device status options from src/types/index.ts. -/
inductive DeviceStatus
  | Assigned
  | Unassigned
  | Retired
  | Unknown
deriving DecidableEq

/-- Operating system options from src/types/index.ts. -/
inductive OperatingSystem
  | Windows11
  | Windows10
  | Windows8
  | Windows7
deriving DecidableEq

/-- Device entity from src/types/index.ts; optional TypeScript fields are
Option valued. -/
structure Device where
  id : String
  serial_number : String
  pid_number : String
  asset_id : String
  device_type : DeviceType
  operating_system : Option OperatingSystem
  ori_number : Option String
  status : DeviceStatus
  to_be_retired : Option Bool
  pid_registered : Option Bool
  retirement_msp_deactivated : Option Bool
  retirement_capwin_deactivated : Option Bool
  retirement_domain_disconnected : Option Bool
  retirement_formatted : Option Bool
  officer : String
  assignment_date : String
  notes : String
  updated_at : Option String
deriving DecidableEq

/-- Device creation payload from src/types/index.ts: a Device without the
store-managed id and updated_at fields. -/
structure DeviceFormData where
  serial_number : String
  pid_number : String
  asset_id : String
  device_type : DeviceType
  operating_system : Option OperatingSystem
  ori_number : Option String
  status : DeviceStatus
  to_be_retired : Option Bool
  pid_registered : Option Bool
  retirement_msp_deactivated : Option Bool
  retirement_capwin_deactivated : Option Bool
  retirement_domain_disconnected : Option Bool
  retirement_formatted : Option Bool
  officer : String
  assignment_date : String
  notes : String
deriving DecidableEq

/-- Association list model of the JavaScript Map used for the inventory
index: insertion appends an entry, and lookup scans from the most recent
entry, so a repeated key resolves to the last write, exactly the Map set
and get behavior the source relies on. -/
def mapSet (m : List (String × Device)) (k : String) (d : Device) : List (String × Device) :=
  m ++ [(k, d)]

def mapGet (m : List (String × Device)) (k : String) : Option Device :=
  (m.reverse.find? (fun p => p.1 == k)).map (fun p => p.2)

/-- Translation of the index construction inside the comparison computation
of src/components/pid-comparison-modal.tsx: every device whose pid_number
is truthy and non-blank after trimming is inserted under its normalized
PID. -/
def inventoryPids (inventory : List Device) : List (String × Device) :=
  inventory.foldl
    (fun m device =>
      if device.pid_number ≠ "" ∧ jsTrim device.pid_number ≠ "" then
        mapSet m (normalizePid device.pid_number) device
      else m)
    []

structure ComparisonResult where
  found : List String
  missing : List String
  foundDevices : List Device
deriving DecidableEq

/-- Classification of one parsed identifier against the inventory index,
mirroring the loop body of the comparison computation: a hit appends the
identifier to found and the indexed device to foundDevices, a miss appends
the identifier to missing. -/
def classify (idx : List (String × Device)) (r : ComparisonResult) (pid : String) :
    ComparisonResult :=
  match mapGet idx pid with
  | some device => ⟨r.found ++ [pid], r.missing, r.foundDevices ++ [device]⟩
  | none => ⟨r.found, r.missing ++ [pid], r.foundDevices⟩

/-- Translation of the comparison computation from
src/components/pid-comparison-modal.tsx: empty results for an empty parsed
list, otherwise a fold of classify over the parsed identifiers against the
inventory index. -/
def comparison (parsed : List String) (inventory : List Device) : ComparisonResult :=
  if parsed.length = 0 then ⟨[], [], []⟩
  else parsed.foldl (classify (inventoryPids inventory)) ⟨[], [], []⟩

theorem classify_counts (idx : List (String × Device)) (r : ComparisonResult) (p : String) :
    (classify idx r p).found.length + (classify idx r p).missing.length
        = r.found.length + r.missing.length + 1 ∧
      (classify idx r p).foundDevices.length + r.found.length
        = (classify idx r p).found.length + r.foundDevices.length := by
  cases h : mapGet idx p <;> simp [classify, h] <;> omega

theorem classify_foldl_counts (idx : List (String × Device)) (pids : List String) :
    ∀ r : ComparisonResult,
      ((pids.foldl (classify idx) r).found.length
          + (pids.foldl (classify idx) r).missing.length
        = r.found.length + r.missing.length + pids.length) ∧
      ((pids.foldl (classify idx) r).foundDevices.length + r.found.length
        = (pids.foldl (classify idx) r).found.length + r.foundDevices.length) := by
  induction pids with
  | nil => intro r; constructor <;> simp [Nat.add_comm]
  | cons p rest ih =>
      intro r
      rw [List.foldl_cons]
      have h1 := classify_counts idx r p
      have h2 := ih (classify idx r p)
      simp only [List.length_cons]
      constructor <;> omega

theorem classify_foldl_corr (idx : List (String × Device)) (pids : List String) :
    ∀ r : ComparisonResult,
      r.foundDevices.length = r.found.length →
      (∀ (i : Nat) (p : String) (d : Device), r.found[i]? = some p →
        r.foundDevices[i]? = some d → mapGet idx p = some d) →
      (pids.foldl (classify idx) r).foundDevices.length
          = (pids.foldl (classify idx) r).found.length ∧
        ∀ (i : Nat) (p : String) (d : Device),
          (pids.foldl (classify idx) r).found[i]? = some p →
          (pids.foldl (classify idx) r).foundDevices[i]? = some d →
          mapGet idx p = some d := by
  induction pids with
  | nil => intro r hlen hr; exact ⟨hlen, hr⟩
  | cons q rest ih =>
      intro r hlen hr
      rw [List.foldl_cons]
      apply ih
      · cases hm : mapGet idx q <;> simp [classify, hm, hlen]
      · intro i p d hp hd
        cases hm : mapGet idx q with
        | none =>
            simp only [classify, hm] at hp hd
            exact hr i p d hp hd
        | some dev =>
            simp only [classify, hm] at hp hd
            by_cases hi : i < r.found.length
            · rw [List.getElem?_append_left hi] at hp
              have hi2 : i < r.foundDevices.length := by omega
              rw [List.getElem?_append_left hi2] at hd
              exact hr i p d hp hd
            · have hif : r.found.length ≤ i := by omega
              have hid : r.foundDevices.length ≤ i := by omega
              rw [List.getElem?_append_right hif] at hp
              rw [List.getElem?_append_right hid] at hd
              cases hj : i - r.found.length with
              | zero =>
                  rw [hj] at hp
                  have hj2 : i - r.foundDevices.length = 0 := by omega
                  rw [hj2] at hd
                  simp at hp hd
                  rw [← hp, ← hd]
                  exact hm
              | succ n =>
                  rw [hj] at hp
                  simp at hp

/-- C6: for every parsed identifier sequence and inventory snapshot, the
comparison result classifies every parsed token exactly once, so the found
and missing counts add up to the parsed count; foundDevices has the same
length as found; and position by position, foundDevices holds exactly the
device the inventory index yields for the corresponding found identifier. -/
theorem reconcile_invariants (pids : List String) (inventory : List Device) :
    (comparison pids inventory).found.length + (comparison pids inventory).missing.length
        = pids.length ∧
      (comparison pids inventory).foundDevices.length
        = (comparison pids inventory).found.length ∧
      ∀ i (h1 : i < (comparison pids inventory).found.length)
          (h2 : i < (comparison pids inventory).foundDevices.length),
        mapGet (inventoryPids inventory) ((comparison pids inventory).found.get ⟨i, h1⟩)
          = some ((comparison pids inventory).foundDevices.get ⟨i, h2⟩) := by
  by_cases hz : pids.length = 0
  · rw [comparison, if_pos hz]
    refine ⟨by simpa using hz.symm, rfl, ?_⟩
    intro i h1 h2
    simp at h1
  · rw [comparison, if_neg hz]
    have hc := classify_foldl_counts (inventoryPids inventory) pids ⟨[], [], []⟩
    have hcorr := classify_foldl_corr (inventoryPids inventory) pids ⟨[], [], []⟩
      rfl (by intro i p d hp hd; simp at hp)
    refine ⟨by simpa using hc.1, hcorr.1, ?_⟩
    intro i h1 h2
    apply hcorr.2 i
    · rw [List.get_eq_getElem]
      exact List.getElem?_eq_getElem h1
    · rw [List.get_eq_getElem]
      exact List.getElem?_eq_getElem h2

theorem reconcile_invariants_witness :
    (comparison ["Z100A13927", "Z100B12345"]
        [⟨"id1", "3ITTA13927", "Z100A13927", "A1", DeviceType.Toughbook, none, none,
          DeviceStatus.Assigned, none, none, none, none, none, none, "", "", "", none⟩]).found.length
      + (comparison ["Z100A13927", "Z100B12345"]
        [⟨"id1", "3ITTA13927", "Z100A13927", "A1", DeviceType.Toughbook, none, none,
          DeviceStatus.Assigned, none, none, none, none, none, none, "", "", "", none⟩]).missing.length
      = 2 ∧
    mapGet (inventoryPids
        [⟨"id1", "3ITTA13927", "Z100A13927", "A1", DeviceType.Toughbook, none, none,
          DeviceStatus.Assigned, none, none, none, none, none, none, "", "", "", none⟩])
        ((comparison ["Z100A13927", "Z100B12345"]
          [⟨"id1", "3ITTA13927", "Z100A13927", "A1", DeviceType.Toughbook, none, none,
            DeviceStatus.Assigned, none, none, none, none, none, none, "", "", "", none⟩]).found.get
          ⟨0, by decide⟩)
      = some ((comparison ["Z100A13927", "Z100B12345"]
          [⟨"id1", "3ITTA13927", "Z100A13927", "A1", DeviceType.Toughbook, none, none,
            DeviceStatus.Assigned, none, none, none, none, none, none, "", "", "", none⟩]).foundDevices.get
          ⟨0, by decide⟩) :=
  ⟨(reconcile_invariants ["Z100A13927", "Z100B12345"]
      [⟨"id1", "3ITTA13927", "Z100A13927", "A1", DeviceType.Toughbook, none, none,
        DeviceStatus.Assigned, none, none, none, none, none, none, "", "", "", none⟩]).1,
   (reconcile_invariants ["Z100A13927", "Z100B12345"]
      [⟨"id1", "3ITTA13927", "Z100A13927", "A1", DeviceType.Toughbook, none, none,
        DeviceStatus.Assigned, none, none, none, none, none, none, "", "", "", none⟩]).2.2
      0 (by decide) (by decide)⟩

theorem getLast?_cons_or {α : Type} (a : α) (l : List α) :
    (a :: l).getLast? = l.getLast?.or (some a) := by
  induction l generalizing a with
  | nil => simp
  | cons b t ih =>
      rw [List.getLast?_cons_cons, ih b, Option.or_assoc, Option.or_some]

theorem mapGet_append_single (m : List (String × Device)) (k k2 : String) (d : Device) :
    mapGet (m ++ [(k, d)]) k2 = if k == k2 then some d else mapGet m k2 := by
  cases hk : (k == k2) with
  | true =>
      rw [if_pos rfl]
      unfold mapGet
      rw [List.reverse_append, List.reverse_singleton, List.singleton_append,
        List.find?_cons_of_pos _ (by simpa using hk)]
      rfl
  | false =>
      rw [if_neg (by simp)]
      unfold mapGet
      rw [List.reverse_append, List.reverse_singleton, List.singleton_append,
        List.find?_cons_of_neg _ (by simpa using hk)]

theorem inventoryPids_foldl_or (k : String) :
    ∀ (inventory : List Device) (m : List (String × Device)),
      mapGet (inventory.foldl
        (fun m device =>
          if device.pid_number ≠ "" ∧ jsTrim device.pid_number ≠ "" then
            mapSet m (normalizePid device.pid_number) device
          else m) m) k
        = ((inventory.filter (fun d =>
            decide ((d.pid_number ≠ "" ∧ jsTrim d.pid_number ≠ "") ∧
              normalizePid d.pid_number = k))).getLast?).or (mapGet m k) := by
  intro inventory
  induction inventory with
  | nil => intro m; simp
  | cons d rest ih =>
      intro m
      rw [List.foldl_cons, List.filter_cons]
      by_cases hq : d.pid_number ≠ "" ∧ jsTrim d.pid_number ≠ ""
      · rw [if_pos hq, ih (mapSet m (normalizePid d.pid_number) d)]
        by_cases hk : normalizePid d.pid_number = k
        · have hd : decide ((d.pid_number ≠ "" ∧ jsTrim d.pid_number ≠ "") ∧
              normalizePid d.pid_number = k) = true := by simp [hq, hk]
          rw [hd, if_pos rfl, getLast?_cons_or, Option.or_assoc, Option.or_some]
          have hmg : mapGet (mapSet m (normalizePid d.pid_number) d) k = some d := by
            show mapGet (m ++ [(normalizePid d.pid_number, d)]) k = some d
            rw [mapGet_append_single, if_pos (by simp [hk])]
          rw [hmg]
        · have hd : decide ((d.pid_number ≠ "" ∧ jsTrim d.pid_number ≠ "") ∧
              normalizePid d.pid_number = k) = false := by simp [hk]
          rw [hd, if_neg (by simp)]
          have hmg : mapGet (mapSet m (normalizePid d.pid_number) d) k = mapGet m k := by
            show mapGet (m ++ [(normalizePid d.pid_number, d)]) k = mapGet m k
            rw [mapGet_append_single, if_neg (by simp [hk])]
          rw [hmg]
      · rw [if_neg hq, ih m]
        have hd : decide ((d.pid_number ≠ "" ∧ jsTrim d.pid_number ≠ "") ∧
            normalizePid d.pid_number = k) = false := by
          simp only [decide_eq_false_iff_not]
          intro hcon
          exact hq hcon.1
        rw [hd, if_neg (by simp)]

/-- C7: the inventory index resolves a key k to the last device, in snapshot
iteration order, whose pid_number is truthy and non-blank after trimming
and whose normalized pid_number equals k. Read as an equation over all
snapshots this says exactly: devices with a blank PID are excluded and can
never be matched; a key is present in the index exactly when some
qualifying device normalizes to it; and on duplicate normalized PIDs the
construction is last write wins, with no possibility of a crash since every
function involved is total. -/
theorem index_last_write_wins (inventory : List Device) (k : String) :
    mapGet (inventoryPids inventory) k
      = (inventory.filter (fun d =>
          decide ((d.pid_number ≠ "" ∧ jsTrim d.pid_number ≠ "") ∧
            normalizePid d.pid_number = k))).getLast? := by
  rw [inventoryPids, inventoryPids_foldl_or k inventory []]
  rw [show mapGet [] k = none from rfl, Option.or_none]

/-- Translation of the devicesToAdd construction in handleAddMissingPids of
src/components/pid-comparison-modal.tsx: one placeholder device creation
payload per missing identifier, carrying the fixed sentinel and default
values of the source literal; optional fields absent from the literal are
none. -/
def devicesToAdd (missing : List String) : List DeviceFormData :=
  missing.map (fun pid =>
    { serial_number := "", pid_number := pid, asset_id := "UNKNOWN",
      device_type := DeviceType.Toughbook, operating_system := none,
      ori_number := none, status := DeviceStatus.Unknown,
      to_be_retired := some false, pid_registered := none,
      retirement_msp_deactivated := none, retirement_capwin_deactivated := none,
      retirement_domain_disconnected := none, retirement_formatted := none,
      officer := "", assignment_date := "", notes := "" })

/-- C8: devicesToAdd returns exactly one payload per input identifier, in
input order with duplicates retained, and payload i is the placeholder
record whose pid_number is the identifier at position i, with empty serial
number, the sentinel asset id UNKNOWN, the default Toughbook category, the
Unknown status, and all remaining fields empty, false or absent. -/
theorem buildPlaceholderRecords_spec (missing : List String) :
    (devicesToAdd missing).length = missing.length ∧
      ∀ i : Nat, i < missing.length →
        (devicesToAdd missing)[i]? = some
          { serial_number := "", pid_number := missing.getD i "", asset_id := "UNKNOWN",
            device_type := DeviceType.Toughbook, operating_system := none,
            ori_number := none, status := DeviceStatus.Unknown,
            to_be_retired := some false, pid_registered := none,
            retirement_msp_deactivated := none, retirement_capwin_deactivated := none,
            retirement_domain_disconnected := none, retirement_formatted := none,
            officer := "", assignment_date := "", notes := "" } := by
  constructor
  · simp [devicesToAdd]
  · intro i hi
    rw [devicesToAdd, List.getElem?_map, List.getElem?_eq_getElem hi]
    rw [List.getD_eq_getElem?_getD, List.getElem?_eq_getElem hi]
    rfl

theorem buildPlaceholderRecords_spec_witness :
    (devicesToAdd ["Z100B12345"]).length = (["Z100B12345"] : List String).length ∧
      (devicesToAdd ["Z100B12345"])[0]? = some
        { serial_number := "", pid_number := (["Z100B12345"] : List String).getD 0 "",
          asset_id := "UNKNOWN", device_type := DeviceType.Toughbook,
          operating_system := none, ori_number := none, status := DeviceStatus.Unknown,
          to_be_retired := some false, pid_registered := none,
          retirement_msp_deactivated := none, retirement_capwin_deactivated := none,
          retirement_domain_disconnected := none, retirement_formatted := none,
          officer := "", assignment_date := "", notes := "" } :=
  ⟨(buildPlaceholderRecords_spec ["Z100B12345"]).1,
   (buildPlaceholderRecords_spec ["Z100B12345"]).2 0 (by decide)⟩

/-- Component state of the reconciliation modal touched by the add flow:
the pasted text and the busy flag. -/
structure ModalState where
  pidList : String
  isAddingDevices : Bool
deriving DecidableEq

/-- Outcome of the external bulk create call awaited by the add flow. -/
inductive CreateOutcome
  | success
  | failure
deriving DecidableEq

/-- State transition of handleAddMissingPids from
src/components/pid-comparison-modal.tsx. The guards mirror the early
returns for an empty missing partition and an absent onAddDevices callback;
past them the devicesToAdd payloads go to the external bulk create, whose
result is the outcome argument. On success the pasted list is cleared; on
failure the catch branch reports the error, returned as the Boolean
component, and leaves the pasted list untouched; the finally branch resets
the busy flag on both paths. -/
def handleAddMissingPids (st : ModalState) (inventory : List Device)
    (hasOnAddDevices : Bool) (outcome : CreateOutcome) : ModalState × Bool :=
  let comp := comparison (parsedPids st.pidList) inventory
  if comp.missing.length = 0 then (st, false)
  else if hasOnAddDevices = false then (st, false)
  else
    match outcome with
    | CreateOutcome.success => ({ pidList := "", isAddingDevices := false }, false)
    | CreateOutcome.failure => ({ pidList := st.pidList, isAddingDevices := false }, true)

/-- C9: when the external bulk create fails, the failure is reported to the
operator and the reconciler state is untouched: the pasted list is exactly
what it was before the call, and the found and missing partition derived
from it is unchanged, so the operator can inspect and retry; the pasted
list is cleared only on the success path. -/
theorem addMissing_failure_preserves_state (st : ModalState) (inventory : List Device)
    (h : (comparison (parsedPids st.pidList) inventory).missing.length ≠ 0) :
    (handleAddMissingPids st inventory true CreateOutcome.failure).2 = true ∧
      (handleAddMissingPids st inventory true CreateOutcome.failure).1.pidList = st.pidList ∧
      comparison (parsedPids
          (handleAddMissingPids st inventory true CreateOutcome.failure).1.pidList) inventory
        = comparison (parsedPids st.pidList) inventory ∧
      (handleAddMissingPids st inventory true CreateOutcome.success).1.pidList = "" := by
  simp [handleAddMissingPids, h]

theorem addMissing_failure_preserves_state_witness :
    (handleAddMissingPids ⟨"Z100B12345", false⟩ [] true CreateOutcome.failure).2 = true ∧
      (handleAddMissingPids ⟨"Z100B12345", false⟩ [] true CreateOutcome.failure).1.pidList
        = "Z100B12345" ∧
      comparison (parsedPids
          (handleAddMissingPids ⟨"Z100B12345", false⟩ [] true CreateOutcome.failure).1.pidList) []
        = comparison (parsedPids "Z100B12345") [] ∧
      (handleAddMissingPids ⟨"Z100B12345", false⟩ [] true CreateOutcome.success).1.pidList = "" :=
  addMissing_failure_preserves_state ⟨"Z100B12345", false⟩ [] (by decide)

theorem normalized_chars (a : String) (h : normalizePid a = a) :
    ∀ c ∈ a.data, isAllowedChar c = true ∧ jsToUpperChar c = c ∧
      jsWhitespace c = false ∧ sepChar c = false := by
  intro c hc
  have hdata : a.data = sanitizeChars (trimChars a.data) := by
    conv_lhs => rw [← h]
    rfl
  rw [hdata] at hc
  exact sanitizeChars_normal (trimChars a.data) c hc

theorem sanitizeChars_eq_self (l : List Char)
    (h : ∀ c ∈ l, isAllowedChar c = true ∧ jsToUpperChar c = c) :
    sanitizeChars l = l := by
  unfold sanitizeChars
  rw [List.filter_eq_self.mpr (fun a ha => (h a ha).1)]
  calc l.map jsToUpperChar = l.map id := List.map_congr_left (fun a ha => (h a ha).2)
    _ = l := List.map_id l

theorem sanitizeChars_append (l1 l2 : List Char) :
    sanitizeChars (l1 ++ l2) = sanitizeChars l1 ++ sanitizeChars l2 := by
  simp [sanitizeChars]

theorem trimChars_cons_concat (x y : Char) (mid : List Char)
    (hx : jsWhitespace x = false) (hy : jsWhitespace y = false) :
    trimChars (x :: (mid ++ [y])) = x :: (mid ++ [y]) := by
  unfold trimChars
  rw [show (x :: (mid ++ [y])).dropWhile jsWhitespace = x :: (mid ++ [y]) from by
    simp [List.dropWhile_cons, hx]]
  have hrev : (x :: (mid ++ [y])).reverse = y :: (mid.reverse ++ [x]) := by
    simp
  rw [hrev, show (y :: (mid.reverse ++ [x])).dropWhile jsWhitespace
      = y :: (mid.reverse ++ [x]) from by simp [List.dropWhile_cons, hy]]
  rw [← hrev, List.reverse_reverse]

/-- C10: spaces and tabs are not token separators in parsedPids: the split
runs only on runs of newline, comma and semicolon, and normalization then
deletes whitespace inside a token, so a line holding two identifiers
separated only by a space parses as one single token equal to their
concatenation, not as two tokens. The hypotheses say that a and b are
identifiers already in canonical normalized form and non-empty. -/
theorem space_not_separator (a b : String)
    (ha : normalizePid a = a) (hb : normalizePid b = b)
    (hna : a ≠ "") (hnb : b ≠ "") :
    parsedPids (a ++ " " ++ b) = [a ++ b] := by
  have hqa := normalized_chars a ha
  have hqb := normalized_chars b hb
  have hsp : (" " : String).data = [' '] := rfl
  cases hda : a.data with
  | nil => exact absurd (String.ext (by rw [hda])) hna
  | cons x ta =>
    rcases List.eq_nil_or_concat b.data with hdb | ⟨ib, y, hdb⟩
    · exact absurd (String.ext (by rw [hdb])) hnb
    · have hdb2 : b.data = ib ++ [y] := by simpa [List.concat_eq_append] using hdb
      have hdatafull : (a ++ " " ++ b).data = x :: ((ta ++ ' ' :: ib) ++ [y]) := by
        rw [String.data_append, String.data_append, hda, hdb2, hsp]
        simp
      have hxa : x ∈ a.data := by rw [hda]; exact List.mem_cons_self _ _
      have hyb : y ∈ b.data := by
        rw [hdb2]; exact List.mem_append.mpr (Or.inr (List.mem_cons_self _ _))
      have hxw : jsWhitespace x = false := (hqa x hxa).2.2.1
      have hyw : jsWhitespace y = false := (hqb y hyb).2.2.1
      have htrim : trimChars ((a ++ " " ++ b).data) = (a ++ " " ++ b).data := by
        rw [hdatafull]
        exact trimChars_cons_concat x y (ta ++ ' ' :: ib) hxw hyw
      have hguard : jsTrim (a ++ " " ++ b) ≠ "" := by
        intro hcon
        have hnil : trimChars ((a ++ " " ++ b).data) = [] := congrArg String.data hcon
        rw [htrim, hdatafull] at hnil
        simp at hnil
      have hnosep : ∀ c ∈ (a ++ " " ++ b).data, sepChar c = false := by
        intro c hc
        rw [String.data_append, String.data_append] at hc
        rcases List.mem_append.mp hc with hc1 | hc2
        · rcases List.mem_append.mp hc1 with hc3 | hc4
          · exact (hqa c hc3).2.2.2
          · have hceq : c = ' ' := by simpa [hsp] using hc4
            rw [hceq]; decide
        · exact (hqb c hc2).2.2.2
      have hsplit : jsSplit (a ++ " " ++ b) = [String.mk ((a ++ " " ++ b).data)] := by
        unfold jsSplit
        rw [jsSplitGo_no_sep ((a ++ " " ++ b).data) [] hnosep]
        simp
      have hsana : sanitizeChars a.data = a.data :=
        sanitizeChars_eq_self a.data (fun c hc => ⟨(hqa c hc).1, (hqa c hc).2.1⟩)
      have hsanb : sanitizeChars b.data = b.data :=
        sanitizeChars_eq_self b.data (fun c hc => ⟨(hqb c hc).1, (hqb c hc).2.1⟩)
      have hnorm : normalizePid (String.mk ((a ++ " " ++ b).data)) = a ++ b := by
        show String.mk (sanitizeChars (trimChars ((a ++ " " ++ b).data))) = a ++ b
        rw [htrim, String.data_append, String.data_append, hsp,
          sanitizeChars_append, sanitizeChars_append, hsana, hsanb,
          show sanitizeChars [' '] = [] from rfl]
        apply String.ext
        rw [String.data_append]
        simp
      have hlen : 0 < (a ++ b).length := by
        have hal : (a ++ b).length = (a ++ b).data.length := rfl
        rw [hal, String.data_append, hda]
        simp only [List.length_append, List.length_cons]
        omega
      rw [parsedPids, if_neg hguard, hsplit, List.map_cons, List.map_nil, hnorm]
      have halen : 0 < a.length := by
        rw [show a.length = a.data.length from rfl, hda]
        simp
      simp only [List.filter_cons]
      rw [if_pos (by simp [halen])]
      rfl

theorem space_not_separator_witness :
    parsedPids ("Z100A13927" ++ " " ++ "Z100B12345") = ["Z100A13927" ++ "Z100B12345"] :=
  space_not_separator "Z100A13927" "Z100B12345" (by decide) (by decide)
    (by decide) (by decide)
